import Mathlib

/-!
# License policy evaluation engine of `wwhrd` (`cli.go`) — shallow embedding

This file embeds the `Check.Execute` command of `cli.go` (the license policy
evaluation engine) and proves properties of it.

Modelling decisions, each tied to the source:

* Go `map[string]LicenseClassification` iteration (`for pkg, lic := range lics`,
  cli.go:168) has no specified order; the embedding takes the dependency map as
  an association list `List (String × License)` whose order is the iteration
  order of one concrete run.
* The maps `whitelist`/`blacklist`/`exceptions`/`exceptionsWildcard`
  (cli.go:129-150) are built from the config lists purely for boolean
  membership; the embedding keeps the lists and uses list membership, which
  agrees with `m[k]` on a `map[string]bool` whose keys are the list entries.
* The report sink (`os.File`, cli.go:152-165) is modelled by the sequence of
  `WriteString` outcomes: `failAt = some j` means the `j`-th write (the header
  is write `0`, the entry for the `i`-th dependency is write `i+1`) fails and
  `failAt = none` means every write succeeds.  The written bytes are
  accumulated in a string.
* `err` in `Check.Execute` is a single mutable variable, assigned by every
  `report.WriteString` (cli.go:171) and by the non-approved branch
  (cli.go:207); the embedding threads it explicitly as an `Option RunError`.
-/

namespace Wwhrd

/-- License classification: `Type` (SPDX-like tag, empty when unrecognized)
and the raw license `Text`, as consumed by `Check.Execute` from
`GetLicenses`. -/
structure License where
  type : String
  text : String
deriving DecidableEq, Repr

/-- The three policy lists of the `.wwhrd.yml` config (`ReadConfig`,
cli.go:112). -/
structure Config where
  whitelist : List String
  blacklist : List String
  exceptions : List String
deriving DecidableEq, Repr

/-- Go `strings.HasPrefix s pre`: `pre` is a byte prefix of `s`.  For valid
UTF-8 strings with an ASCII-compatible pattern this coincides with
char-list prefix. -/
def goHasPre (s pre : String) : Bool :=
  pre.data.isPrefixOf s.data

/-- Go `strings.HasSuffix s suf`: `suf` is a byte suffix of `s`. -/
def goHasSuf (s suf : String) : Bool :=
  suf.data.isSuffixOf s.data

/-- Go `strings.TrimRight s cutset`: removes ALL trailing code points of `s`
that occur in `cutset` (a character set, not a suffix). -/
def goTrimRight (s cutset : String) : String :=
  ⟨((s.data.reverse.dropWhile (fun c => cutset.data.contains c))).reverse⟩

/-- cli.go:141-150: split the raw `Exceptions` list into the wildcard
prefixes (`exceptionsWildcard`, entries ending in `"/..."`, after
`strings.TrimRight(v, "/...")`) and the exact exceptions (`exceptions`,
everything else).  Returns `(exceptionsWildcard, exceptions)`. -/
def buildExceptions : List String → List String × List String
  | [] => ([], [])
  | v :: rest =>
    if goHasSuf v "/..." then
      ((goTrimRight v "/...") :: (buildExceptions rest).1, (buildExceptions rest).2)
    else
      ((buildExceptions rest).1, v :: (buildExceptions rest).2)

/-- Per-dependency verdict of the policy evaluation (the three `continue`
paths and the fall-through of the `PackageList` loop body,
cli.go:182-207). -/
inductive Verdict where
  | Approved
  | Exceptioned
  | NonApproved
deriving DecidableEq, Repr

/-- The loop body's decision logic for one dependency (cli.go:182-207):
whitelisted-and-not-blacklisted first, then the wildcard-exception scan
(`strings.HasPrefix(pkg, wc)`), then the exact-exception lookup, else
non-approved.  (The `len(exceptionsWildcard) > 0` guard at cli.go:189 is
equivalent to the scan finding no match on an empty map.) -/
def evaluate (pkg : String) (lic : License)
    (whitelist blacklist wildcards exacts : List String) : Verdict :=
  if lic.type ∈ whitelist ∧ lic.type ∉ blacklist then .Approved
  else if ∃ wc ∈ wildcards, goHasPre pkg wc = true then .Exceptioned
  else if pkg ∈ exacts then .Exceptioned
  else .NonApproved

/-- The two error values `Check.Execute` can return from the package loop: the
error of a failed `report.WriteString` (cli.go:171-174) and the
`"Non-Approved license found"` policy error (cli.go:207). -/
inductive RunError where
  | policyViolation
  | writeError
deriving DecidableEq, Repr

/-- cli.go:94. -/
def licenseReportHeader : String :=
  "THE FOLLOWING SETS FORTH ATTRIBUTION NOTICES FOR THIRD PARTY SOFTWARE THAT MAY BE CONTAINED IN PORTIONS OF THE FLOW PROJECT"

/-- `fmt.Sprintf(licenseReportTemplate, pkg, lic.Text)` (cli.go:95-102, 171):
the raw-string template with its two `%s` verbs substituted by the package
identifier and the raw license text, in that order. -/
def licenseReportEntry (pkg text : String) : String :=
  "\n\n---\n\nThe following software may be included in this product: " ++ pkg
    ++ ". This software contains the following license and notice below:\n\n"
    ++ text ++ "\n"

/-- Whether write number `k` of the report sink succeeds. -/
def writeOk : Option Nat → Nat → Bool
  | none, _ => true
  | some j, k => decide (k < j)

/-- Outcome of a `Check.Execute` run over the package loop: the per-dependency
verdicts in iteration order (a dependency whose report write fails gets no
verdict — the function returns before evaluating it), the bytes written to the
report sink, and the returned error (`none` = success). -/
structure RunOutcome where
  verdicts : List (String × Verdict)
  output : String
  result : Option RunError
deriving DecidableEq, Repr

/-- The `PackageList` loop (cli.go:167-209) over the remaining dependencies.
`k` is the index of the next report write, `err` the current value of the
`err` variable.  With a report attached, a successful `report.WriteString`
overwrites `err` with `nil` (cli.go:171) before the verdict is computed; a
failed one returns the write error immediately (cli.go:172-174). -/
def checkLoop (failAt : Option Nat) (hasReport : Bool)
    (wl bl wcs exs : List String) :
    List (String × License) → Nat → Option RunError → RunOutcome
  | [], _, err => ⟨[], "", err⟩
  | (pkg, lic) :: rest, k, err =>
    if hasReport then
      if writeOk failAt k then
        let v := evaluate pkg lic wl bl wcs exs
        let err' : Option RunError :=
          if v = .NonApproved then some .policyViolation else none
        let r := checkLoop failAt hasReport wl bl wcs exs rest (k + 1) err'
        ⟨(pkg, v) :: r.verdicts,
         licenseReportEntry pkg lic.text ++ r.output, r.result⟩
      else
        ⟨[], "", some .writeError⟩
    else
      let v := evaluate pkg lic wl bl wcs exs
      let err' : Option RunError :=
        if v = .NonApproved then some .policyViolation else err
      let r := checkLoop failAt hasReport wl bl wcs exs rest k err'
      ⟨(pkg, v) :: r.verdicts, "", r.result⟩

/-- `Check.Execute` (cli.go:104-212) from `GetLicenses` on: build the
blacklist/whitelist/exception sets, optionally create the report and write the
header (cli.go:152-165, write number `0`; a failed header write returns its
error), then run the `PackageList` loop with `err = nil` and return the final
`err` (cli.go:211). -/
def checkExecute (lics : List (String × License)) (cfg : Config)
    (hasReport : Bool) (failAt : Option Nat) : RunOutcome :=
  let wcs := (buildExceptions cfg.exceptions).1
  let exs := (buildExceptions cfg.exceptions).2
  if hasReport then
    if writeOk failAt 0 then
      let r := checkLoop failAt true cfg.whitelist cfg.blacklist wcs exs lics 1 none
      ⟨r.verdicts, licenseReportHeader ++ r.output, r.result⟩
    else
      ⟨[], "", some .writeError⟩
  else
    checkLoop failAt false cfg.whitelist cfg.blacklist wcs exs lics 0 none

/-- The `(DependencyID, Verdict)` pair the loop produces for one dependency
under a given config. -/
def evalPair (cfg : Config) (pl : String × License) : String × Verdict :=
  (pl.1, evaluate pl.1 pl.2 cfg.whitelist cfg.blacklist
    (buildExceptions cfg.exceptions).1 (buildExceptions cfg.exceptions).2)

/-- Concatenation of the rendered report entries of a dependency list, in
order. -/
def renderedEntries (lics : List (String × License)) : String :=
  lics.foldr (fun pl acc => licenseReportEntry pl.1 pl.2.text ++ acc) ""

/-! ## Helper lemmas about `goTrimRight` and `buildExceptions` -/

/-- `goTrimRight` splits the character list: what it keeps followed by what it
drops. -/
lemma goTrimRight_split (s cutset : String) :
    s.data = (goTrimRight s cutset).data
      ++ (s.data.reverse.takeWhile (fun c => cutset.data.contains c)).reverse := by
  show s.data = (s.data.reverse.dropWhile (fun c => cutset.data.contains c)).reverse
    ++ (s.data.reverse.takeWhile (fun c => cutset.data.contains c)).reverse
  rw [← List.reverse_append, List.takeWhile_append_dropWhile,
    List.reverse_reverse]

/-- What `goTrimRight` keeps is a prefix of the original character list. -/
lemma goTrimRight_data_isPre (s cutset : String) :
    (goTrimRight s cutset).data <+: s.data := by
  exact ⟨_, (goTrimRight_split s cutset).symm⟩

/-- Every character `goTrimRight` removes belongs to the cutset. -/
lemma goTrimRight_dropped_mem (s cutset : String) :
    ∀ c ∈ s.data.drop (goTrimRight s cutset).data.length,
      cutset.data.contains c = true := by
  intro c hc
  rw [goTrimRight_split s cutset, List.drop_left] at hc
  have : c ∈ s.data.reverse.takeWhile (fun c => cutset.data.contains c) := by
    simpa using hc
  exact List.mem_takeWhile_imp this

/-- The character kept last by `goTrimRight` (if any) is not in the cutset:
together with the two lemmas above this pins `goTrimRight` down exactly. -/
lemma goTrimRight_getLast?_not_mem (s cutset : String) (c : Char)
    (h : (goTrimRight s cutset).data.getLast? = some c) :
    cutset.data.contains c = false := by
  set p : Char → Bool := fun c => cutset.data.contains c with hp
  have hh : (s.data.reverse.dropWhile p).head? = some c := by
    rw [← List.getLast?_reverse]
    exact h
  have hne : s.data.reverse.dropWhile p ≠ [] := by
    intro hnil
    rw [hnil] at hh
    exact Option.noConfusion hh
  have hhead := List.head_dropWhile_not p s.data.reverse hne
  have : (s.data.reverse.dropWhile p).head hne = c :=
    (List.head?_eq_head hne).symm.trans hh |> Option.some.inj
  rw [this] at hhead
  exact hhead

/-- Characters of the `"/..."` cutset are `/` or `.`. -/
lemma mem_wildcardCutset_iff (c : Char) :
    ("/...").data.contains c = true ↔ c = '/' ∨ c = '.' := by
  have hdata : ("/...").data = ['/', '.', '.', '.'] := rfl
  rw [show ("/...").data.contains c = List.elem c ("/...").data from rfl,
    List.elem_eq_mem, hdata, decide_eq_true_eq]
  simp only [List.mem_cons, List.not_mem_nil, or_false]
  tauto

/-- A wildcard entry contributes its trimmed form to the first component. -/
lemma mem_buildExceptions_wildcards {v : String} {entries : List String}
    (hv : v ∈ entries) (hsuf : goHasSuf v "/..." = true) :
    goTrimRight v "/..." ∈ (buildExceptions entries).1 := by
  induction entries with
  | nil => cases hv
  | cons e rest ih =>
    rcases List.mem_cons.mp hv with rfl | hv'
    · rw [buildExceptions, if_pos hsuf]
      exact List.mem_cons_self _ _
    · rw [buildExceptions]
      split
      · exact List.mem_cons_of_mem _ (ih hv')
      · exact ih hv'

/-- A non-wildcard entry lands unchanged in the second component. -/
lemma mem_buildExceptions_exacts {v : String} {entries : List String}
    (hv : v ∈ entries) (hsuf : goHasSuf v "/..." = false) :
    v ∈ (buildExceptions entries).2 := by
  induction entries with
  | nil => cases hv
  | cons e rest ih =>
    rcases List.mem_cons.mp hv with rfl | hv'
    · rw [buildExceptions, if_neg (by simp [hsuf])]
      exact List.mem_cons_self _ _
    · rw [buildExceptions]
      split
      · exact ih hv'
      · exact List.mem_cons_of_mem _ (ih hv')

/-- Each entry goes to exactly one of the two sets (counted with
multiplicity). -/
lemma buildExceptions_length (entries : List String) :
    (buildExceptions entries).1.length + (buildExceptions entries).2.length
      = entries.length := by
  induction entries with
  | nil => rfl
  | cons e rest ih =>
    rw [buildExceptions]
    split <;> simp only [List.length_cons] <;> omega

/-! ## Claims C2, C3, C4, C8: the verdict evaluator and exception
normalization -/

/-- Claim C2: for every dependency and policy, the verdict is `Approved` if
and only if the license type is in the whitelist and not in the blacklist; in
particular a blacklisted type is never `Approved`, even when also
whitelisted (deny wins). -/
theorem evaluate_approved_iff (pkg : String) (lic : License)
    (wl bl wcs exs : List String) :
    (evaluate pkg lic wl bl wcs exs = .Approved
        ↔ lic.type ∈ wl ∧ lic.type ∉ bl)
      ∧ (lic.type ∈ bl → evaluate pkg lic wl bl wcs exs ≠ .Approved) := by
  constructor
  · unfold evaluate
    split
    · next h => simpa using h
    · next h =>
      split
      · simpa using h
      · split <;> simpa using h
  · intro hbl habs
    unfold evaluate at habs
    split at habs
    · next h => exact h.2 hbl
    · split at habs
      · exact Verdict.noConfusion habs
      · split at habs <;> exact Verdict.noConfusion habs

/-- Claim C2, witness: instantiation of `evaluate_approved_iff` at a type
that is both whitelisted and blacklisted. -/
theorem evaluate_approved_iff_witness :
    (evaluate "p" ⟨"MIT", ""⟩ ["MIT"] ["MIT"] [] [] = .Approved
        ↔ ("MIT" : String) ∈ ["MIT"] ∧ ("MIT" : String) ∉ (["MIT"] : List String))
      ∧ (("MIT" : String) ∈ ["MIT"]
        → evaluate "p" ⟨"MIT", ""⟩ ["MIT"] ["MIT"] [] [] ≠ .Approved) :=
  evaluate_approved_iff "p" ⟨"MIT", ""⟩ ["MIT"] ["MIT"] [] []

/-- Claim C3, counterexample: the wildcard entry `"a./..."` is normalized by
`strings.TrimRight` to `"a"`, not to the claimed `"a."` obtained by stripping
exactly the `"/..."` marker — the trailing `.` of the intended prefix is
stripped too. -/
theorem buildExceptions_strips_beyond_marker :
    buildExceptions ["a./..."] = (["a"], [])
      ∧ ("a." : String) ∉ (buildExceptions ["a./..."]).1 := by
  constructor
  · rfl
  · decide

/-- Claim C3 (amended): every exception entry lands in exactly one of the two
derived sets; an entry ending in the wildcard marker `"/..."` contributes the
result of removing ALL its trailing `/` and `.` characters (Go
`strings.TrimRight` semantics — at least the marker, possibly more) to the
wildcard set, and any other entry lands unchanged in the exact set.  The
contributed value is characterized exactly: it is a prefix of the entry, the
removed characters are all `/` or `.`, and it does not end in `/` or `.`. -/
theorem buildExceptions_partition (entries : List String) :
    ((buildExceptions entries).1.length + (buildExceptions entries).2.length
        = entries.length)
      ∧ (∀ v ∈ entries,
        (goHasSuf v "/..." = true →
          goTrimRight v "/..." ∈ (buildExceptions entries).1
            ∧ (goTrimRight v "/...").data <+: v.data
            ∧ (∀ c ∈ v.data.drop (goTrimRight v "/...").data.length,
                c = '/' ∨ c = '.')
            ∧ (∀ c, (goTrimRight v "/...").data.getLast? = some c
                → ¬(c = '/' ∨ c = '.')))
          ∧ (goHasSuf v "/..." = false → v ∈ (buildExceptions entries).2)) := by
  refine ⟨buildExceptions_length entries, fun v hv => ⟨fun hsuf => ?_, fun hsuf =>
    mem_buildExceptions_exacts hv hsuf⟩⟩
  refine ⟨mem_buildExceptions_wildcards hv hsuf, goTrimRight_data_isPre v "/...",
    fun c hc => ?_, fun c hc => ?_⟩
  · exact (mem_wildcardCutset_iff c).mp (goTrimRight_dropped_mem v "/..." c hc)
  · intro hor
    have := goTrimRight_getLast?_not_mem v "/..." c hc
    rw [(mem_wildcardCutset_iff c).mpr hor] at this
    exact Bool.noConfusion this

/-- Claim C3 (amended), witness: instantiation of `buildExceptions_partition`
at the entries `["a./...", "b"]`. -/
theorem buildExceptions_partition_witness :
    ((buildExceptions ["a./...", "b"]).1.length
        + (buildExceptions ["a./...", "b"]).2.length = (["a./...", "b"] : List String).length)
      ∧ (∀ v ∈ (["a./...", "b"] : List String),
        (goHasSuf v "/..." = true →
          goTrimRight v "/..." ∈ (buildExceptions ["a./...", "b"]).1
            ∧ (goTrimRight v "/...").data <+: v.data
            ∧ (∀ c ∈ v.data.drop (goTrimRight v "/...").data.length,
                c = '/' ∨ c = '.')
            ∧ (∀ c, (goTrimRight v "/...").data.getLast? = some c
                → ¬(c = '/' ∨ c = '.')))
          ∧ (goHasSuf v "/..." = false → v ∈ (buildExceptions ["a./...", "b"]).2)) :=
  buildExceptions_partition ["a./...", "b"]

/-- Claim C4, counterexample: a dependency that exactly matches an exact
exception entry but whose license type is whitelisted gets the verdict
`Approved`, not `Exceptioned` — the whitelist check runs first
(cli.go:183). -/
theorem exact_exception_whitelisted_is_approved :
    evaluate "x" ⟨"MIT", "t"⟩ ["MIT"] []
        (buildExceptions ["x"]).1 (buildExceptions ["x"]).2 = .Approved
      ∧ Verdict.Approved ≠ .Exceptioned := by
  constructor
  · rfl
  · decide

/-- Claim C4 (amended): a dependency that exactly matches an exact exception
entry is never `NonApproved`, regardless of license type; whenever it is not
`Approved` (license type not whitelisted, or blacklisted) its verdict is
`Exceptioned`. -/
theorem evaluate_exact_exception_ne_nonApproved (pkg : String) (lic : License)
    (wl bl wcs exs : List String) (h : pkg ∈ exs) :
    evaluate pkg lic wl bl wcs exs ≠ .NonApproved
      ∧ (¬(lic.type ∈ wl ∧ lic.type ∉ bl)
        → evaluate pkg lic wl bl wcs exs = .Exceptioned) := by
  unfold evaluate
  by_cases h1 : lic.type ∈ wl ∧ lic.type ∉ bl
  · rw [if_pos h1]
    exact ⟨fun habs => Verdict.noConfusion habs, fun hna => absurd h1 hna⟩
  · rw [if_neg h1]
    by_cases h2 : ∃ wc ∈ wcs, goHasPre pkg wc = true
    · rw [if_pos h2]
      exact ⟨fun habs => Verdict.noConfusion habs, fun _ => rfl⟩
    · rw [if_neg h2, if_pos h]
      exact ⟨fun habs => Verdict.noConfusion habs, fun _ => rfl⟩

/-- Claim C4 (amended), witness: instantiation of
`evaluate_exact_exception_ne_nonApproved` at a GPL-licensed dependency listed
as an exact exception. -/
theorem evaluate_exact_exception_ne_nonApproved_witness :
    evaluate "x" ⟨"GPL", "t"⟩ [] [] [] ["x"] ≠ .NonApproved
      ∧ (¬(("GPL" : String) ∈ ([] : List String)
            ∧ ("GPL" : String) ∉ ([] : List String))
        → evaluate "x" ⟨"GPL", "t"⟩ [] [] [] ["x"] = .Exceptioned) :=
  evaluate_exact_exception_ne_nonApproved "x" ⟨"GPL", "t"⟩ [] [] [] ["x"]
    (by decide)

/-- Claim C8, counterexample: if the config whitelist itself contains the
empty string, a dependency with unrecognized license type (`lic.Type == ""`)
DOES take the `Approved` branch — nothing in the code keeps `""` out of the
whitelist map. -/
theorem empty_type_whitelisted_is_approved :
    evaluate "p" ⟨"", ""⟩ [""] [] [] [] = .Approved
      ∧ Verdict.Approved ≠ .NonApproved := by
  constructor
  · rfl
  · decide

/-- Claim C8 (amended): provided the empty string is not a whitelist entry,
a dependency with unrecognized license type (`lic.Type == ""`) never takes
the `Approved` branch; it falls through to the exception checks and is
`NonApproved` unless an exact or wildcard exception covers it. -/
theorem evaluate_unrecognized_falls_through (pkg text : String)
    (wl bl wcs exs : List String) (hwl : "" ∉ wl) :
    evaluate pkg ⟨"", text⟩ wl bl wcs exs ≠ .Approved
      ∧ ((¬∃ wc ∈ wcs, goHasPre pkg wc = true) → pkg ∉ exs
        → evaluate pkg ⟨"", text⟩ wl bl wcs exs = .NonApproved) := by
  have hna : ¬((License.mk "" text).type ∈ wl
      ∧ (License.mk "" text).type ∉ bl) := fun h => hwl h.1
  constructor
  · unfold evaluate
    rw [if_neg hna]
    split
    · exact fun habs => Verdict.noConfusion habs
    · split <;> exact fun habs => Verdict.noConfusion habs
  · intro hwc hex
    unfold evaluate
    rw [if_neg hna, if_neg hwc, if_neg hex]

/-- Claim C8 (amended), witness: instantiation of
`evaluate_unrecognized_falls_through` at an empty policy. -/
theorem evaluate_unrecognized_falls_through_witness :
    evaluate "pkgX" ⟨"", ""⟩ [] [] [] [] ≠ .Approved
      ∧ ((¬∃ wc ∈ ([] : List String), goHasPre "pkgX" wc = true)
        → "pkgX" ∉ ([] : List String)
        → evaluate "pkgX" ⟨"", ""⟩ [] [] [] [] = .NonApproved) :=
  evaluate_unrecognized_falls_through "pkgX" "" [] [] [] [] (by decide)

/-! ## Loop lemmas for the `PackageList` loop -/

/-- With a report attached and every write succeeding, the loop renders the
entry of every remaining dependency, in order, whatever the verdicts are. -/
lemma checkLoop_none_report_output (wl bl wcs exs : List String)
    (lst : List (String × License)) (k : Nat) (err : Option RunError) :
    (checkLoop none true wl bl wcs exs lst k err).output
      = renderedEntries lst := by
  induction lst generalizing k err with
  | nil => rfl
  | cons pl rest ih =>
    obtain ⟨pkg, lic⟩ := pl
    show licenseReportEntry pkg lic.text
        ++ (checkLoop none true wl bl wcs exs rest (k + 1) _).output
      = licenseReportEntry pkg lic.text ++ renderedEntries rest
    rw [ih]

/-- The loop produces exactly one verdict per remaining dependency, in order,
when no write fails. -/
lemma checkLoop_none_verdicts (hasReport : Bool) (wl bl wcs exs : List String)
    (lst : List (String × License)) (k : Nat) (err : Option RunError) :
    (checkLoop none hasReport wl bl wcs exs lst k err).verdicts
      = lst.map (fun pl => (pl.1, evaluate pl.1 pl.2 wl bl wcs exs)) := by
  induction lst generalizing k err with
  | nil => cases hasReport <;> rfl
  | cons pl rest ih =>
    obtain ⟨pkg, lic⟩ := pl
    cases hasReport
    · show (pkg, evaluate pkg lic wl bl wcs exs)
          :: (checkLoop none false wl bl wcs exs rest k _).verdicts = _
      rw [ih]
      rfl
    · show (pkg, evaluate pkg lic wl bl wcs exs)
          :: (checkLoop none true wl bl wcs exs rest (k + 1) _).verdicts = _
      rw [ih]
      rfl

/-- If every remaining dependency evaluates to `Approved` or `Exceptioned`,
the `err` variable is never set and the loop returns the success outcome,
with no `NonApproved` verdict recorded. -/
lemma checkLoop_none_no_violation (hasReport : Bool) (wl bl wcs exs : List String)
    (lst : List (String × License)) (k : Nat)
    (h : ∀ pl ∈ lst, evaluate pl.1 pl.2 wl bl wcs exs = .Approved
      ∨ evaluate pl.1 pl.2 wl bl wcs exs = .Exceptioned) :
    (checkLoop none hasReport wl bl wcs exs lst k none).result = none
      ∧ ∀ pv ∈ (checkLoop none hasReport wl bl wcs exs lst k none).verdicts,
        pv.2 = .Approved ∨ pv.2 = .Exceptioned := by
  induction lst generalizing k with
  | nil =>
    cases hasReport
    · exact ⟨rfl, by intro pv hpv; cases hpv⟩
    · exact ⟨rfl, by intro pv hpv; cases hpv⟩
  | cons pl rest ih =>
    obtain ⟨pkg, lic⟩ := pl
    have hhd := h (pkg, lic) (List.mem_cons_self _ _)
    have hv : (if evaluate pkg lic wl bl wcs exs = Verdict.NonApproved
        then some RunError.policyViolation else none) = none := by
      rcases hhd with h' | h' <;> rw [h'] <;> rfl
    have htail := fun k' => ih k' (fun pl hpl => h pl (List.mem_cons_of_mem _ hpl))
    cases hasReport
    · have hstep : checkLoop none false wl bl wcs exs ((pkg, lic) :: rest) k none
          = ⟨(pkg, evaluate pkg lic wl bl wcs exs)
              :: (checkLoop none false wl bl wcs exs rest k none).verdicts, "",
            (checkLoop none false wl bl wcs exs rest k none).result⟩ := by
        show RunOutcome.mk _ _ _ = _
        rw [hv]
      rw [hstep]
      refine ⟨(htail k).1, ?_⟩
      intro pv hpv
      rcases List.mem_cons.mp hpv with rfl | hpv'
      · exact hhd
      · exact (htail k).2 pv hpv'
    · have hstep : checkLoop none true wl bl wcs exs ((pkg, lic) :: rest) k none
          = ⟨(pkg, evaluate pkg lic wl bl wcs exs)
              :: (checkLoop none true wl bl wcs exs rest (k + 1) none).verdicts,
            licenseReportEntry pkg lic.text
              ++ (checkLoop none true wl bl wcs exs rest (k + 1) none).output,
            (checkLoop none true wl bl wcs exs rest (k + 1) none).result⟩ := by
        show RunOutcome.mk _ _ _ = _
        rw [hv]
      rw [hstep]
      refine ⟨(htail (k + 1)).1, ?_⟩
      intro pv hpv
      rcases List.mem_cons.mp hpv with rfl | hpv'
      · exact hhd
      · exact (htail (k + 1)).2 pv hpv'

/-- Unfolding of one loop iteration with a report attached and a successful
write: render the entry, evaluate the verdict, overwrite `err`, recurse. -/
lemma checkLoop_cons_report_ok (failAt : Option Nat) (wl bl wcs exs : List String)
    (pkg : String) (lic : License) (rest : List (String × License))
    (k : Nat) (err : Option RunError) (hw : writeOk failAt k = true) :
    checkLoop failAt true wl bl wcs exs ((pkg, lic) :: rest) k err
      = ⟨(pkg, evaluate pkg lic wl bl wcs exs)
          :: (checkLoop failAt true wl bl wcs exs rest (k + 1)
            (if evaluate pkg lic wl bl wcs exs = .NonApproved
              then some .policyViolation else none)).verdicts,
        licenseReportEntry pkg lic.text
          ++ (checkLoop failAt true wl bl wcs exs rest (k + 1)
            (if evaluate pkg lic wl bl wcs exs = .NonApproved
              then some .policyViolation else none)).output,
        (checkLoop failAt true wl bl wcs exs rest (k + 1)
          (if evaluate pkg lic wl bl wcs exs = .NonApproved
            then some .policyViolation else none)).result⟩ := by
  show (if writeOk failAt k = true then _ else _) = _
  rw [if_pos hw]

/-- Unfolding of one loop iteration with a report attached and a failing
write: return the write error at once, with nothing evaluated or rendered. -/
lemma checkLoop_cons_report_fail (failAt : Option Nat) (wl bl wcs exs : List String)
    (pkg : String) (lic : License) (rest : List (String × License))
    (k : Nat) (err : Option RunError) (hw : writeOk failAt k = false) :
    checkLoop failAt true wl bl wcs exs ((pkg, lic) :: rest) k err
      = ⟨[], "", some .writeError⟩ := by
  show (if writeOk failAt k = true then _ else _) = _
  rw [hw]
  rfl

/-- With a report attached and the `j`-th write failing, the loop (entered at
write index `k ≤ j` with `j - k < |lst|`) evaluates and renders exactly the
first `j - k` remaining dependencies, and returns the write error
immediately. -/
lemma checkLoop_failAt (j : Nat) (wl bl wcs exs : List String)
    (lst : List (String × License)) :
    ∀ (k : Nat) (err : Option RunError), k ≤ j → j - k < lst.length →
      checkLoop (some j) true wl bl wcs exs lst k err
        = ⟨(lst.take (j - k)).map
            (fun pl => (pl.1, evaluate pl.1 pl.2 wl bl wcs exs)),
          renderedEntries (lst.take (j - k)), some .writeError⟩ := by
  induction lst with
  | nil =>
    intro k err _ h2
    exact absurd h2 (by simp)
  | cons pl rest ih =>
    intro k err h1 h2
    obtain ⟨pkg, lic⟩ := pl
    by_cases hk : k < j
    · have hw : writeOk (some j) k = true := by
        simp only [writeOk, decide_eq_true_eq]
        exact hk
      rw [checkLoop_cons_report_ok (some j) wl bl wcs exs pkg lic rest k err hw,
        ih (k + 1) _ (by omega) (by
          simp only [List.length_cons] at h2
          omega)]
      have htake : (j - k) = (j - (k + 1)) + 1 := by omega
      rw [htake, List.take_succ_cons]
      simp only [List.map_cons, RunOutcome.mk.injEq]
      exact ⟨trivial, rfl, trivial⟩
    · have hkj : k = j := by omega
      have hw : writeOk (some j) k = false := by
        simp only [writeOk, decide_eq_false_iff_not]
        omega
      rw [checkLoop_cons_report_fail (some j) wl bl wcs exs pkg lic rest k err hw]
      have : j - k = 0 := by omega
      rw [this, List.take_zero]
      rfl

/-! ## Claims C1, C5, C6, C7, C9, C10: the audit runner and the report -/

set_option maxRecDepth 8192 in
/-- Claim C1: with a report sink attached, every successful
`report.WriteString` overwrites the shared `err` variable (cli.go:171), so a
`NonApproved` policy error recorded for an earlier dependency is erased by the
report write of the next one: the run over `{bad ↦ GPL, good ↦ MIT}` (in that
iteration order) with whitelist `[MIT]` returns success even though `bad`
received `NonApproved`, while the identical run without a report sink returns
the policy error — attaching the sink DOES change the outcome, and the
outcome is not `failure iff some dependency is NonApproved`. -/
theorem checkExecute_report_masks_violation :
    (checkExecute [("bad", ⟨"GPL", "g"⟩), ("good", ⟨"MIT", "m"⟩)]
        ⟨["MIT"], [], []⟩ true none).result = none
      ∧ ("bad", Verdict.NonApproved)
          ∈ (checkExecute [("bad", ⟨"GPL", "g"⟩), ("good", ⟨"MIT", "m"⟩)]
            ⟨["MIT"], [], []⟩ true none).verdicts
      ∧ (checkExecute [("bad", ⟨"GPL", "g"⟩), ("good", ⟨"MIT", "m"⟩)]
          ⟨["MIT"], [], []⟩ false none).result = some .policyViolation := by
  refine ⟨rfl, ?_, rfl⟩
  show ("bad", Verdict.NonApproved)
    ∈ [("bad", Verdict.NonApproved), ("good", Verdict.Approved)]
  exact List.mem_cons_self _ _

set_option maxRecDepth 8192 in
/-- Claim C5: evaluation is not short-circuited — at the failing input below
every dependency after the first `NonApproved` one is still evaluated and
reported, and the verdict list has exactly one entry per input dependency in
iteration order — but the aggregate outcome does NOT stay failed: the
successful report write for `y` resets `err`, and the run returns success
despite the `NonApproved` verdict of `x`. -/
theorem checkExecute_continues_but_unfails :
    (checkExecute [("x", ⟨"GPL", "a"⟩), ("y", ⟨"MIT", "b"⟩), ("z", ⟨"MIT", "c"⟩)]
        ⟨["MIT"], [], []⟩ true none).verdicts
      = [("x", .NonApproved), ("y", .Approved), ("z", .Approved)]
      ∧ (checkExecute [("x", ⟨"GPL", "a"⟩), ("y", ⟨"MIT", "b"⟩), ("z", ⟨"MIT", "c"⟩)]
          ⟨["MIT"], [], []⟩ true none).result = none := by
  exact ⟨rfl, rfl⟩

/-- Claim C6: with a report sink attached and no write failure, the rendered
report is the fixed header (written exactly once) followed by exactly one
formatted entry per input dependency, in iteration order; the right-hand side
does not depend on the policy at all, so the entries are emitted regardless of
each dependency's verdict. -/
theorem checkExecute_report_output (lics : List (String × License))
    (cfg : Config) :
    (checkExecute lics cfg true none).output
      = licenseReportHeader ++ renderedEntries lics := by
  show licenseReportHeader ++ (checkLoop none true _ _ _ _ lics 1 none).output
      = licenseReportHeader ++ renderedEntries lics
  rw [checkLoop_none_report_output]

set_option maxRecDepth 8192 in
/-- Claim C7: the report output of `Check.Execute` depends on the iteration
order of the dependency map — the same two-dependency map rendered in the two
possible orders produces different reports.  The source iterates a Go map
(`for pkg, lic := range lics`, cli.go:168), whose iteration order is
unspecified and randomized, so no single fixed order is guaranteed. -/
theorem checkExecute_output_order_dependent :
    (checkExecute [("a", ⟨"MIT", "ta"⟩), ("b", ⟨"MIT", "tb"⟩)]
        ⟨["MIT"], [], []⟩ true none).output
      ≠ (checkExecute [("b", ⟨"MIT", "tb"⟩), ("a", ⟨"MIT", "ta"⟩)]
          ⟨["MIT"], [], []⟩ true none).output := by
  decide

/-- Claim C9: when the `k`-th report write fails (the header is write `0`,
so `1 ≤ k ≤ |deps|` makes it an entry write), `Check.Execute` returns the
write error itself immediately: only the first `k - 1` dependencies have been
evaluated and rendered, and the surfaced error is `writeError`, distinct from
`policyViolation`, even when `NonApproved` verdicts occurred earlier. -/
theorem checkExecute_write_failure (lics : List (String × License))
    (cfg : Config) (k : Nat) (h1 : 1 ≤ k) (h2 : k ≤ lics.length) :
    (checkExecute lics cfg true (some k)).result = some .writeError
      ∧ (checkExecute lics cfg true (some k)).verdicts
          = (lics.take (k - 1)).map (evalPair cfg)
      ∧ (checkExecute lics cfg true (some k)).output
          = licenseReportHeader ++ renderedEntries (lics.take (k - 1))
      ∧ RunError.writeError ≠ RunError.policyViolation := by
  have hw0 : writeOk (some k) 0 = true := by
    simp only [writeOk, decide_eq_true_eq]
    omega
  have hloop := checkLoop_failAt k cfg.whitelist cfg.blacklist
    (buildExceptions cfg.exceptions).1 (buildExceptions cfg.exceptions).2
    lics 1 none (by omega) (by omega)
  have hexec : checkExecute lics cfg true (some k)
      = ⟨(checkLoop (some k) true cfg.whitelist cfg.blacklist
            (buildExceptions cfg.exceptions).1 (buildExceptions cfg.exceptions).2
            lics 1 none).verdicts,
        licenseReportHeader
          ++ (checkLoop (some k) true cfg.whitelist cfg.blacklist
            (buildExceptions cfg.exceptions).1 (buildExceptions cfg.exceptions).2
            lics 1 none).output,
        (checkLoop (some k) true cfg.whitelist cfg.blacklist
            (buildExceptions cfg.exceptions).1 (buildExceptions cfg.exceptions).2
            lics 1 none).result⟩ := by
    show (if writeOk (some k) 0 = true then _ else _) = _
    rw [if_pos hw0]
  rw [hexec, hloop]
  refine ⟨rfl, ?_, rfl, fun habs => RunError.noConfusion habs⟩
  show (lics.take (k - 1)).map _ = (lics.take (k - 1)).map (evalPair cfg)
  rfl

/-- Claim C9, witness: instantiation of `checkExecute_write_failure` with the
write for the second dependency failing, after the first got
`NonApproved`. -/
theorem checkExecute_write_failure_witness :
    (checkExecute [("bad", ⟨"GPL", "g"⟩), ("good", ⟨"MIT", "m"⟩)]
        ⟨["MIT"], [], []⟩ true (some 2)).result = some .writeError
      ∧ (checkExecute [("bad", ⟨"GPL", "g"⟩), ("good", ⟨"MIT", "m"⟩)]
          ⟨["MIT"], [], []⟩ true (some 2)).verdicts
          = (([("bad", ⟨"GPL", "g"⟩), ("good", ⟨"MIT", "m"⟩)]
              : List (String × License)).take (2 - 1)).map
            (evalPair ⟨["MIT"], [], []⟩)
      ∧ (checkExecute [("bad", ⟨"GPL", "g"⟩), ("good", ⟨"MIT", "m"⟩)]
          ⟨["MIT"], [], []⟩ true (some 2)).output
          = licenseReportHeader
            ++ renderedEntries (([("bad", ⟨"GPL", "g"⟩), ("good", ⟨"MIT", "m"⟩)]
              : List (String × License)).take (2 - 1))
      ∧ RunError.writeError ≠ RunError.policyViolation :=
  checkExecute_write_failure [("bad", ⟨"GPL", "g"⟩), ("good", ⟨"MIT", "m"⟩)]
    ⟨["MIT"], [], []⟩ 2 (by decide) (by decide)

/-- Claim C10: an exception entry that ends in the wildcard marker and whose
characters are all drawn from `/` and `.` (such as `"/..."`) is trimmed to the
empty prefix, which prefix-matches every dependency identifier; consequently
every dependency is `Approved` or `Exceptioned` (never `NonApproved`) and the
run returns success regardless of any blacklist, with or without a report
sink. -/
theorem checkExecute_universal_wildcard (entry : String) (cfg : Config)
    (lics : List (String × License)) (hasReport : Bool)
    (hmem : entry ∈ cfg.exceptions)
    (hsuf : goHasSuf entry "/..." = true)
    (hchars : ∀ c ∈ entry.data, c = '/' ∨ c = '.') :
    (∀ pv ∈ (checkExecute lics cfg hasReport none).verdicts,
        pv.2 = .Approved ∨ pv.2 = .Exceptioned)
      ∧ (checkExecute lics cfg hasReport none).result = none := by
  have hnil : (goTrimRight entry "/...").data = [] := by
    show (entry.data.reverse.dropWhile (fun c => ("/...").data.contains c)).reverse = []
    rw [List.reverse_eq_nil_iff, List.dropWhile_eq_nil_iff]
    intro c hc
    exact (mem_wildcardCutset_iff c).mpr (hchars c (List.mem_reverse.mp hc))
  have hwc : goTrimRight entry "/..." ∈ (buildExceptions cfg.exceptions).1 :=
    mem_buildExceptions_wildcards hmem hsuf
  have heval : ∀ pl ∈ lics,
      evaluate pl.1 pl.2 cfg.whitelist cfg.blacklist
          (buildExceptions cfg.exceptions).1 (buildExceptions cfg.exceptions).2
        = .Approved
      ∨ evaluate pl.1 pl.2 cfg.whitelist cfg.blacklist
          (buildExceptions cfg.exceptions).1 (buildExceptions cfg.exceptions).2
        = .Exceptioned := by
    intro pl _
    unfold evaluate
    by_cases h1 : pl.2.type ∈ cfg.whitelist ∧ pl.2.type ∉ cfg.blacklist
    · rw [if_pos h1]
      exact Or.inl rfl
    · rw [if_neg h1, if_pos ⟨goTrimRight entry "/...", hwc, by
        show (goTrimRight entry "/...").data.isPrefixOf pl.1.data = true
        rw [hnil]
        exact List.isPrefixOf_nil_left⟩]
      exact Or.inr rfl
  cases hasReport
  · have h := checkLoop_none_no_violation false cfg.whitelist cfg.blacklist
      (buildExceptions cfg.exceptions).1 (buildExceptions cfg.exceptions).2
      lics 0 heval
    exact ⟨h.2, h.1⟩
  · have h := checkLoop_none_no_violation true cfg.whitelist cfg.blacklist
      (buildExceptions cfg.exceptions).1 (buildExceptions cfg.exceptions).2
      lics 1 heval
    exact ⟨h.2, h.1⟩

/-- Claim C10, witness: instantiation of `checkExecute_universal_wildcard`
with the exception entry `"/..."` and a blacklisted GPL dependency. -/
theorem checkExecute_universal_wildcard_witness :
    (∀ pv ∈ (checkExecute [("p", ⟨"GPL", "t"⟩)] ⟨[], ["GPL"], ["/..."]⟩
        false none).verdicts, pv.2 = .Approved ∨ pv.2 = .Exceptioned)
      ∧ (checkExecute [("p", ⟨"GPL", "t"⟩)] ⟨[], ["GPL"], ["/..."]⟩
          false none).result = none :=
  checkExecute_universal_wildcard "/..." ⟨[], ["GPL"], ["/..."]⟩
    [("p", ⟨"GPL", "t"⟩)] false (by decide) (by decide) (by decide)

end Wwhrd
